import Mathlib

/-!
Verification of the metrique schema compiler's validation, name-inflection
and entry-synthesis logic (crate metrique-macro, with its runtime contract
from metrique-core).

Shallow embedding conventions:
* Source locations (proc-macro spans) are modelled as natural numbers.
* The external `inflector` crate (case conversion) is out of scope of the
  repository; its three conversion functions are passed around as an
  explicit `Inflector` record of pure string functions, exactly matching
  how the source calls them.
* Darling attribute parsing (the attribute grammar front end) is out of
  scope; raw attribute records arrive already parsed, as in the source's
  `Raw*Attrs` structs.
-/

namespace Metrique

/-- Span of a source location (proc_macro2::Span), modelled as a number. -/
abbrev Span := Nat

/-- Diagnostic (darling::Error / syn::Error): a message plus the span it points at. -/
structure Diag where
  msg : String
  span : Span
deriving DecidableEq, Repr

/-- Wrapper from lib.rs `SpannedKv<T>`: a parsed key-value attribute with the
spans of its key and of its value. -/
structure SpannedKv (T : Type) where
  key_span : Span
  value_span : Span
  value : T
deriving DecidableEq, Repr

/-- Wrapper mirroring darling's `SpannedValue<T>`: a value with a span. -/
structure SpannedValue (T : Type) where
  value : T
  span : Span
deriving DecidableEq, Repr

/-- External collaborator: the three case-conversion functions of the
`inflector` crate (`to_pascal_case`, `to_snake_case`, `to_kebab_case`).
The crate is outside this repository and the spec scopes the conversion
algorithms out, treating each as a pure `String -> String` function, so the
embedding passes them in as an explicit record. -/
structure Inflector where
  toPascalCase : String → String
  toSnakeCase : String → String
  toKebabCase : String → String

/-- Model of the Rust standard library predicate `char::is_alphanumeric`
(true on Unicode Alphabetic and Number characters). The model is exact on
the Basic Latin (ASCII) and Latin-1 Supplement blocks, which cover every
character the theorems below evaluate it on: ASCII letters and digits; the
Latin-1 letters U+00AA, U+00B5, U+00BA, U+00C0..U+00FF minus the two
operators U+00D7 and U+00F7; and the Latin-1 numeric characters U+00B2,
U+00B3, U+00B9, U+00BC..U+00BE. Code points above U+00FF are outside the
evaluated range and are conservatively mapped to false. -/
def rustIsAlphanumeric (c : Char) : Bool :=
  (('a' ≤ c && c ≤ 'z') || ('A' ≤ c && c ≤ 'Z') || ('0' ≤ c && c ≤ '9'))
  || (c.val == 0xAA || c.val == 0xB5 || c.val == 0xBA)
  || (0xC0 ≤ c.val && c.val ≤ 0xFF && c.val != 0xD7 && c.val != 0xF7)
  || (c.val == 0xB2 || c.val == 0xB3 || c.val == 0xB9)
  || (0xBC ≤ c.val && c.val ≤ 0xBE)

/-- Translated from inflect.rs `name_contains_uninflectables`: the first
character of `name` that is neither alphanumeric (in the Rust, Unicode sense)
nor an underscore nor a hyphen, if any. -/
def name_contains_uninflectables (name : String) : Option Char :=
  name.data.find? (fun c => !(rustIsAlphanumeric c) && c != '_' && c != '-')

/-- Translated from inflect.rs `name_ends_with_delimiter`: whether the last
character of `name` is an underscore or a hyphen. -/
def name_ends_with_delimiter (name : String) : Bool :=
  name.data.getLast? == some '_' || name.data.getLast? == some '-'

/-- Translated from inflect.rs `name_contains_dot` (`contains('.')` on a
char pattern is membership of the character among the string's chars). -/
def name_contains_dot (name : String) : Bool :=
  name.data.contains '.'

/-- Translated from inflect.rs `NameStyle`: the four supported case styles. -/
inductive NameStyle where
  | PascalCase
  | SnakeCase
  | KebabCase
  | Preserve
deriving DecidableEq, Repr

/-- Translated from inflect.rs `NameStyle::apply`: case-convert a name with
the inflector functions (Preserve returns the name unchanged). -/
def NameStyle.apply (self : NameStyle) (infl : Inflector) (name : String) : String :=
  match self with
  | .PascalCase => infl.toPascalCase name
  | .SnakeCase => infl.toSnakeCase name
  | .Preserve => name
  | .KebabCase => infl.toKebabCase name

/-- Translated from inflect.rs `NameStyle::apply_prefix`: like `apply`, but
for Snake and Kebab the result is guaranteed to end with the style's
delimiter (a delimiter is pushed when missing). The source's
`ends_with("_")` on the one-character pattern is rendered as the
last-character test. -/
def NameStyle.applyPfx (self : NameStyle) (infl : Inflector) (name : String) : String :=
  match self with
  | .PascalCase => infl.toPascalCase name
  | .SnakeCase =>
    let res := infl.toSnakeCase name
    if res.data.getLast? == some '_' then res else res.push '_'
  | .Preserve => name
  | .KebabCase =>
    let res := infl.toKebabCase name
    if res.data.getLast? == some '-' then res else res.push '-'

/-- Translated from lib.rs `Prefix`: a schema or flatten-field prefix, either
inflectable (case-converted together with what follows) or exact (used
verbatim). Named `Pfx` in the embedding. -/
inductive Pfx where
  | Inflectable (p : String)
  | Exact (e : String)
deriving DecidableEq, Repr

/-- Translated from lib.rs `PrefixLevel`: whether a prefix attribute sits on
the schema root or on a flatten field. -/
inductive PfxLevel where
  | Root
  | Field
deriving DecidableEq, Repr

/-- Translated from lib.rs `MetricMode`: the ownership/role mode of a schema. -/
inductive MetricMode where
  | RootEntry
  | Subfield
  | SubfieldOwned
  | Value
  | ValueString
deriving DecidableEq, Repr

/-- Translated from lib.rs `OwnershipKind`. -/
inductive OwnershipKind where
  | ByRef
  | ByValue
deriving DecidableEq, Repr

/-- Translated from lib.rs `RootAttributes` (validated root-level schema
attributes). The dimension-set payload is irrelevant to naming, so only its
presence is kept; the source field `prefix` is named `pfx` here. -/
structure RootAttributes where
  pfx : Option Pfx
  rename_all : NameStyle
  emf_dimensions : Bool
  sample_group : Bool
  mode : MetricMode
deriving DecidableEq, Repr

/-- Translated from lib.rs `RootAttributes::ownership_kind`. -/
def RootAttributes.ownership_kind (self : RootAttributes) : OwnershipKind :=
  match self.mode with
  | .RootEntry | .SubfieldOwned => .ByValue
  | .Subfield | .ValueString | .Value => .ByRef

/-- Translated from the inflect.rs trait `HasInflectableName`: the data the
name-resolution function reads off a field or variant — the optional explicit
name override and the declared identifier. -/
structure InflectableName where
  name_override : Option String
  name : String
deriving DecidableEq, Repr

/-- Translated from inflect.rs `metric_name`: resolve the metric name of a
field or variant under one style, honoring the explicit override and the
schema root prefix. -/
def metric_name (infl : Inflector) (root_attrs : RootAttributes)
    (name_style : NameStyle) (field : InflectableName) : String :=
  match field.name_override with
  | some name_override => name_override
  | none =>
    let base := field.name
    match root_attrs.pfx with
    | some (.Exact exactPfx) => exactPfx ++ name_style.apply infl base
    | some (.Inflectable p) => name_style.apply infl (p ++ base)
    | none => name_style.apply infl base

/-- Model of Rust `{:?}` (Debug) formatting for a string: surrounding double
quotes. Exact for strings without characters that Debug would escape, which
covers every string the theorems below format. -/
def rustDebugStr (s : String) : String :=
  "\x22" ++ s ++ "\x22"

/-- Model of Rust `{:?}` (Debug) formatting for a char: surrounding single
quotes. Exact for characters that Debug does not escape. -/
def rustDebugChar (c : Char) : String :=
  "\x27" ++ String.singleton c ++ "\x27"

/-- Translated from lib.rs `cannot_combine_error`. -/
def cannot_combine_error (existing new : String) (new_span : Span) : Diag :=
  ⟨"Cannot combine `" ++ existing ++ "` with `" ++ new ++ "`", new_span⟩

/-- Translated from lib.rs `Prefix::inflected_prefix_message` (the helper
that rewrites every non-alphanumeric character of the prefix to a hyphen
for the suggested fixed literal). -/
def inflectedPfxFixed (p : String) : String :=
  String.mk (p.data.map (fun c => if !(rustIsAlphanumeric c) then '-' else c))

/-- Translated from lib.rs `Prefix::inflected_prefix_message`: the diagnostic
for an inflectable prefix containing a character it cannot inflect; it
suggests both a fixed inflectable literal and the exact_prefix alternative. -/
def inflectedPfxMessage (p : String) (c : Char) : String :=
  let warning_text :=
    if name_contains_dot p then
      " \x27.\x27 used to be allowed in `prefix` but is now forbidden."
    else ""
  "You cannot use the character " ++ rustDebugChar c ++
  " with `prefix`. `prefix` will \x22inflect\x22 to match the name scheme specified by `rename_all`. For example, it will change all delimiters to `-` for kebab case). If you want to match namestyle, use `prefix = "
  ++ rustDebugStr (inflectedPfxFixed p) ++ "`. If you want to preserve " ++ rustDebugChar c
  ++ " in the final metric name use `" ++ "exact_prefix = " ++ rustDebugStr p ++ "."
  ++ warning_text

/-- Translated from lib.rs `Prefix::prefix_should_end_with_delimiter_message`:
the delimiter chosen for the corrected literal. -/
def pfxDelimiterFor (p : String) : Char :=
  if p.data.contains '-' then '-' else '_'

/-- Corrected literal suggested by the delimiter diagnostic: the prefix with
the chosen delimiter appended (lib.rs `prefix_fixed`). -/
def pfxWithDelimiter (p : String) : String :=
  p.push (pfxDelimiterFor p)

/-- Translated from lib.rs `Prefix::prefix_should_end_with_delimiter_message`. -/
def pfxShouldEndWithDelimiterMessage (p : String) : String :=
  "The root-level prefix `" ++ rustDebugStr p ++ "` must end with a delimiter. Use `prefix = "
  ++ rustDebugStr (pfxWithDelimiter p) ++ "`, which inflects correctly in all inflections"

/-- Translated from lib.rs `Prefix::from_inflectable_and_exact`: validate the
`prefix` / `exact_prefix` attribute pair at the given level. An inflectable
prefix is checked for uninflectable characters, and at root level also for a
trailing delimiter; an exact prefix is accepted unchanged; giving both is an
error. -/
def Pfx.from_inflectable_and_exact (inflectable exact : Option (SpannedKv String))
    (level : PfxLevel) : Except Diag (Option (SpannedValue Pfx)) :=
  match inflectable, exact with
  | some p, none =>
    match name_contains_uninflectables p.value with
    | some c => .error ⟨inflectedPfxMessage p.value c, p.key_span⟩
    | none =>
      match level, name_ends_with_delimiter p.value with
      | .Root, false => .error ⟨pfxShouldEndWithDelimiterMessage p.value, p.key_span⟩
      | _, _ => .ok (some ⟨.Inflectable p.value, p.key_span⟩)
  | none, some p => .ok (some ⟨.Exact p.value, p.key_span⟩)
  | none, none => .ok none
  | some inflectable, some _ =>
    .error (cannot_combine_error "prefix" "exact_prefix" inflectable.key_span)

/-- Translated from lib.rs `validate_name_inner`: a name override must be
non-empty and must not contain a space character. -/
def validate_name_inner (name : String) : Except String Unit :=
  if name.data.isEmpty then .error "invalid name: name field must not be empty"
  else if name.data.contains ' ' then .error "invalid name: name must not contain spaces"
  else .ok ()

/-- Translated from lib.rs `validate_name`: wrap an inner validation failure
in a diagnostic pointing at the override's value span. -/
def validate_name (name : SpannedKv String) : Except Diag (SpannedKv String) :=
  match validate_name_inner name.value with
  | .ok _ => .ok name
  | .error msg => .error ⟨msg, name.value_span⟩

/-- Translated from lib.rs `MetricsFieldKind`: the mutually exclusive kind of
a parsed field. -/
inductive MetricsFieldKind where
  | Ignore (span : Span)
  | Flatten (span : Span) (pfxO : Option Pfx)
  | FlattenEntry (span : Span)
  | Timestamp (span : Span)
  | Field (unit : Option String) (name : Option String) (format : Option String)
      (sample_group : Option Span)
deriving DecidableEq, Repr

/-- Translated from lib.rs `MetricsFieldAttrs`. -/
structure MetricsFieldAttrs where
  close : Bool
  kind : MetricsFieldKind
deriving DecidableEq, Repr

/-- Translated from lib.rs `RawMetricsFieldAttrs`: the raw per-field
attributes as parsed by darling. A `Flag` is modelled as the optional span of
its occurrence; `unit` and `format` paths are modelled as strings. The source
fields `prefix` / `exact_prefix` are named `pfx` / `exactPfx`. -/
structure RawMetricsFieldAttrs where
  flatten : Option Span
  flatten_entry : Option Span
  no_close : Option Span
  timestamp : Option Span
  sample_group : Option Span
  ignore : Option Span
  unit : Option (SpannedKv String)
  format : Option (SpannedKv String)
  name : Option (SpannedKv String)
  pfx : Option (SpannedKv String)
  exactPfx : Option (SpannedKv String)
deriving DecidableEq, Repr

/-- Translated from lib.rs `set_exclusive`: record a kind flag, failing when
another exclusive flag was already set. -/
def set_exclusive {T : Type} (new : Span → T) (name : String)
    (existing : Option (T × String)) (flag : Option Span) :
    Except Diag (Option (T × String)) :=
  match flag, existing with
  | some sp, some (_, other) => .error (cannot_combine_error other name sp)
  | some sp, none => .ok (some (new sp, name))
  | none, _ => .ok existing

/-- Translated from lib.rs `get_field_option`: read a leaf-only key-value
attribute, failing when a non-Field kind was already set. -/
def get_field_option {T : Type} (field_name : String)
    (existing : Option (MetricsFieldKind × String)) (o : Option (SpannedKv T)) :
    Except Diag (Option T) :=
  match o, existing with
  | some input, some (_, other) => .error (cannot_combine_error other field_name input.key_span)
  | some v, none => .ok (some v.value)
  | none, _ => .ok none

/-- Translated from lib.rs `get_field_flag`: read a leaf-only flag attribute,
failing when a non-Field kind was already set. -/
def get_field_flag (field_name : String)
    (existing : Option (MetricsFieldKind × String)) (flag : Option Span) :
    Except Diag (Option Span) :=
  match flag, existing with
  | some sp, some (_, other) => .error (cannot_combine_error other field_name sp)
  | some sp, none => .ok (some sp)
  | none, _ => .ok none

/-- Translated from lib.rs `RawMetricsFieldAttrs::validate`: fold the raw
flags into exactly one field kind, enforcing mutual exclusion, validating the
name override, and attaching a prefix only to `flatten`. Within one field the
first violation aborts (the per-field function is fail-fast; accumulation
happens across fields in the parsers below). -/
def RawMetricsFieldAttrs.validate (self : RawMetricsFieldAttrs) :
    Except Diag MetricsFieldAttrs := do
  let out ← set_exclusive (fun span => MetricsFieldKind.Flatten span none) "flatten"
    none self.flatten
  let out ← set_exclusive MetricsFieldKind.FlattenEntry "flatten_entry" out self.flatten_entry
  let out ← set_exclusive MetricsFieldKind.Timestamp "timestamp" out self.timestamp
  let out ← set_exclusive MetricsFieldKind.Ignore "ignore" out self.ignore
  let nameKv ← match self.name with
    | some kv => do
      let v ← validate_name kv
      pure (some v)
    | none => pure none
  let name ← get_field_option "name" out nameKv
  let unit ← get_field_option "unit" out self.unit
  let format ← get_field_option "format" out self.format
  let sample_group ← get_field_flag "sample_group" out self.sample_group
  let close := self.no_close.isNone
  let _ ← (match close, out with
    | false, some (.Ignore span, _) =>
      Except.error (cannot_combine_error "no_close" "ignore" span)
    | _, _ => Except.ok ())
  let pfxRes ← Pfx.from_inflectable_and_exact self.pfx self.exactPfx .Field
  let out ← match pfxRes with
    | some sv =>
      match out with
      | some (.Flatten span _, tag) => pure (some (MetricsFieldKind.Flatten span (some sv.value), tag))
      | _ => Except.error ⟨"prefix can only be used with `flatten`", sv.span⟩
    | none => pure out
  pure {
    close := close
    kind := match out with
      | some (k, _) => k
      | none => .Field unit name format sample_group
  }

/-- Raw input of structs.rs `parse_struct_fields`: one declared field with
its identifier (none for a positional field), its span, and its raw metrics
attributes (attribute grammar parsing by darling is out of scope and assumed
done). -/
structure RawField where
  ident : Option String
  span : Span
  attrs : RawMetricsFieldAttrs
deriving DecidableEq, Repr

/-- Translated from structs.rs `MetricsField` (the validated field), keeping
the parts the analysed logic reads. -/
structure MetricsField where
  ident : String
  name : Option String
  span : Span
  attrs : MetricsFieldAttrs
deriving DecidableEq, Repr

/-- Identifier and optional name of a declared field, as computed in
structs.rs `parse_struct_fields` from the field's ident or its position. -/
def rawFieldIdent (i : Nat) (f : RawField) : String × Option String :=
  match f.ident with
  | some id => (id, some id)
  | none => (toString i, none)

/-- Accumulating core of structs.rs `parse_struct_fields`: walk the fields
once with their enumeration index, collecting a diagnostic for every invalid
field and the parsed form of every valid field (darling's
`Error::accumulator` with `handle`). -/
def parse_struct_fields_core (i : Nat) (errors : List Diag) (parsed : List MetricsField) :
    List RawField → List Diag × List MetricsField
  | [] => (errors, parsed)
  | f :: rest =>
    match f.attrs.validate with
    | .ok attrs =>
      parse_struct_fields_core (i + 1) errors
        (parsed ++ [⟨(rawFieldIdent i f).1, (rawFieldIdent i f).2, f.span, attrs⟩]) rest
    | .error e => parse_struct_fields_core (i + 1) (errors ++ [e]) parsed rest

/-- Translated from structs.rs `parse_struct_fields`: parse every field,
accumulating all per-field diagnostics before failing (`errors.finish()`). -/
def parse_struct_fields (fields : List RawField) :
    Except (List Diag) (List MetricsField) :=
  let step := parse_struct_fields_core 0 [] [] fields
  if step.1.isEmpty then .ok step.2 else .error step.1

/-- Translated from enums.rs `VariantMode`. -/
inductive VariantMode where
  | ValueString
  | Data
  | SkipAttributeParsing
deriving DecidableEq, Repr

/-- Shape of a raw variant's field list (syn::Fields). -/
inductive VFields where
  | unit
  | unnamed (fields : List RawField)
  | named (fields : List RawField)
deriving DecidableEq, Repr

/-- Whether a variant's field list is empty (syn::Fields::is_empty). -/
def VFields.isEmptyFields : VFields → Bool
  | .unit => true
  | .unnamed fs => fs.isEmpty
  | .named fs => fs.isEmpty

/-- Raw input of enums.rs `parse_enum_variants`: one declared variant with
its identifier, span, optional `name` attribute and its field list. -/
structure RawVariant where
  ident : String
  span : Span
  nameAttr : Option (SpannedKv String)
  fields : VFields
deriving DecidableEq, Repr

/-- Translated from enums.rs `MetricsVariantAttrs`. -/
structure MetricsVariantAttrs where
  name : Option String
deriving DecidableEq, Repr

/-- Translated from enums.rs `VariantData` (the validated variant payload;
the tuple field's type is irrelevant to the analysed logic and omitted). -/
inductive VariantData where
  | Tuple (kind : MetricsFieldKind) (close : Bool)
  | Struct (fields : List MetricsField)
deriving DecidableEq, Repr

/-- Translated from enums.rs `MetricsVariant`. -/
structure MetricsVariant where
  ident : String
  span : Span
  attrs : MetricsVariantAttrs
  data : Option VariantData
deriving DecidableEq, Repr

/-- Translated from enums.rs `parse_variant_data`: validate one variant's
field list shape. Unit variants carry no data; tuple variants must have
exactly one field whose kind is `flatten` or `flatten_entry`; struct-shaped
variants parse their fields like record fields (`parse_metric_fields`). A
darling error accumulated from named fields is kept as a list. -/
def parse_variant_data (vspan : Span) (fields : VFields) :
    Except (List Diag) (Option VariantData) :=
  match fields with
  | .unit => .ok none
  | .unnamed fs =>
    match fs with
    | [field] =>
      match field.attrs.validate with
      | .error e => .error [e]
      | .ok attrs =>
        match attrs.kind with
        | .Flatten _ _ | .FlattenEntry _ => .ok (some (.Tuple attrs.kind attrs.close))
        | _ => .error
            [⟨"tuple variant fields must use #[metrics(flatten)] or #[metrics(flatten_entry)]",
              field.span⟩]
    | _ => .error [⟨"tuple variants must have exactly one field", vspan⟩]
  | .named fs =>
    match parse_struct_fields fs with
    | .ok parsed => .ok (some (.Struct parsed))
    | .error es => .error es

/-- Accumulating core of enums.rs `parse_enum_variants`: walk the variants
once. In `value(string)` mode a variant carrying any data yields a
diagnostic and is skipped before any further parsing; otherwise the variant
data and attributes are parsed, with data errors accumulated and the variant
kept with `data = none`. -/
def parse_enum_variants_core (mode : VariantMode) (errors : List Diag)
    (parsed : List MetricsVariant) :
    List RawVariant → List Diag × List MetricsVariant
  | [] => (errors, parsed)
  | v :: rest =>
    if mode = .ValueString ∧ ¬v.fields.isEmptyFields then
      parse_enum_variants_core mode
        (errors ++ [⟨"value(string) enum variants may not contain data", v.span⟩]) parsed rest
    else
      let attrs : MetricsVariantAttrs :=
        if mode ≠ .SkipAttributeParsing then ⟨v.nameAttr.map (·.value)⟩ else ⟨none⟩
      if mode = .SkipAttributeParsing then
        parse_enum_variants_core mode errors
          (parsed ++ [⟨v.ident, v.span, attrs, none⟩]) rest
      else
        match parse_variant_data v.span v.fields with
        | .ok d =>
          parse_enum_variants_core mode errors
            (parsed ++ [⟨v.ident, v.span, attrs, d⟩]) rest
        | .error es =>
          parse_enum_variants_core mode (errors ++ es)
            (parsed ++ [⟨v.ident, v.span, attrs, none⟩]) rest

/-- Translated from enums.rs `parse_enum_variants`: parse every variant with
accumulated diagnostics (`errors.finish()`), then, in `Data` mode, reject
unit variants outright. -/
def parse_enum_variants (variants : List RawVariant) (mode : VariantMode) :
    Except (List Diag) (List MetricsVariant) :=
  let step := parse_enum_variants_core mode [] [] variants
  if ¬step.1.isEmpty then .error step.1
  else
    if mode = .Data then
      match step.2.find? (fun v => v.data.isNone) with
      | some v => .error
          [⟨"entry enums cannot have unit variants; use #[metrics(value(string))] for unit-only enums",
            v.span⟩]
      | none => .ok step.2
    else .ok step.2

/-- Modelled from the spec: the runtime meaning of the namespace type
parameter `NS` threaded through the generated `InflectableEntry` impls
(the `NameStyle` trait with its `Inflect`, `InflectAffix` and `AppendPrefix`
associated types lives in metrique-core's namestyle/concat modules, which
are not under src/). A namespace carries the selection style used to pick
one of the four precomputed leaf names, together with the already-rendered
accumulated prefix string that is prepended to every leaf name emitted
under it. -/
structure Namespace where
  sel : NameStyle
  pfx : String
deriving DecidableEq, Repr

/-- Modelled from the spec: the name emitted for a leaf under a namespace —
the namespace's accumulated prefix followed by the entry of the four-style
name table that the namespace's selection style picks (the meaning of
`const_str_value::<<NS as NameStyle>::Inflect<...>>()`). -/
def resolveLeaf (ns : Namespace) (table : NameStyle → String) : String :=
  ns.pfx ++ table ns.sel

/-- Modelled from the spec: the namespace of the root entry (metrique-core's
`Identity`): Preserve selection, no prefix. -/
def rootNamespace : Namespace := ⟨.Preserve, ""⟩

/-- Translated from entry_impl.rs `make_ns`, with the meaning of the emitted
types modelled from the spec: `NS::PascalCase` (and Snake/Kebab) pins the
selection style regardless of the caller's, keeping the accumulated prefix,
while Preserve emits `NS` itself, forwarding the caller-supplied namespace
unchanged. -/
def make_ns (style : NameStyle) (ns : Namespace) : Namespace :=
  match style with
  | .PascalCase => { ns with sel := .PascalCase }
  | .SnakeCase => { ns with sel := .SnakeCase }
  | .KebabCase => { ns with sel := .KebabCase }
  | .Preserve => ns

/-- Translated from entry_impl.rs `make_inflect_prefix`, with the meaning of
`AppendPrefix` over an `InflectAffix` modelled from the spec: the prefix is
rendered with `apply_prefix` under the namespace's current selection style
and appended to the accumulated prefix. -/
def appendInflectAffix (infl : Inflector) (ns : Namespace) (p : String) : Namespace :=
  { ns with pfx := ns.pfx ++ ns.sel.applyPfx infl p }

/-- Translated from entry_impl.rs `make_exact_prefix`, with the meaning of
`AppendPrefix` over a plain ConstStr modelled from the spec: the exact prefix
string is appended to the accumulated prefix untouched. -/
def appendExact (ns : Namespace) (e : String) : Namespace :=
  { ns with pfx := ns.pfx ++ e }

/-- Schema field for the entry-generation model. A `field` leaf carries its
declared name, its optional name override and, when it is marked
`sample_group`, the string its value contributes as a tag
(`SampleGroup::as_sample_group`). A `flatten` field carries its optional
local prefix together with the flattened subschema (its root attributes and
fields). A `flattenEntry` field carries the pre-built entry's emitted names
and its own tag sequence, both opaque to renaming by construction. -/
inductive SField where
  | field (name : String) (nameOv : Option String) (sgValue : Option String)
  | flatten (pfxO : Option Pfx) (subAttrs : RootAttributes) (subFields : List SField)
  | flattenEntry (names : List String) (tags : List (String × String))
  | timestamp
  | ignore

/-- Translated from entry_impl.rs `generate_write_statements` (struct impl):
the list of metric names written by a schema's generated
`InflectableEntry::write`, in field order, under a caller namespace.
Timestamp fields write through the timestamp channel (no name), ignored
fields write nothing, flatten-entry fields write their entry's own names,
flattened subschemas recurse under the namespace extended with the
field-level prefix only, and plain fields write their `metric_name` table
resolved under the enclosing schema's `make_ns` namespace. -/
def writeNamesFields (infl : Inflector) (attrs : RootAttributes) (ns : Namespace) :
    List SField → List String
  | [] => []
  | f :: rest =>
    (match f with
      | .timestamp => []
      | .flattenEntry names _ => names
      | .flatten pfxO subAttrs subFields =>
        let ns0 := make_ns attrs.rename_all ns
        let ns1 := match pfxO with
          | none => ns0
          | some (.Inflectable p) => appendInflectAffix infl ns0 p
          | some (.Exact e) => appendExact ns0 e
        writeNamesFields infl subAttrs ns1 subFields
      | .ignore => []
      | .field n ov _ =>
        [resolveLeaf (make_ns attrs.rename_all ns)
          (fun style => metric_name infl attrs style ⟨ov, n⟩)])
    ++ writeNamesFields infl attrs ns rest

/-- Declaration-order sample-group tag sequence of a schema: each
`sample_group` leaf contributes one (resolved name, value) tag at its
position, a flattened subschema contributes its own sequence recursively
under the enclosing style namespace (its field-level prefix is not applied,
matching `generate_sample_group_statements`), and a flatten-entry field
contributes the pre-built entry's tags. -/
def declaredTagsFields (infl : Inflector) (attrs : RootAttributes) (ns : Namespace) :
    List SField → List (String × String)
  | [] => []
  | f :: rest =>
    (match f with
      | .flatten _ subAttrs subFields =>
        declaredTagsFields infl subAttrs (make_ns attrs.rename_all ns) subFields
      | .flattenEntry _ tags => tags
      | .field n ov (some v) =>
        [(resolveLeaf (make_ns attrs.rename_all ns)
            (fun style => metric_name infl attrs style ⟨ov, n⟩), v)]
      | _ => [])
    ++ declaredTagsFields infl attrs ns rest

/-- Translated from entry_impl.rs `generate_sample_group_statements` (the
loop): the list of iterator expressions pushed, one per tag-contributing
field in declaration order — the flattened subschema's whole sequence for a
`flatten` field, the entry's sequence for a `flatten_entry` field, and a
singleton for a `sample_group` leaf. -/
def sampleGroupContribsFields (infl : Inflector) (attrs : RootAttributes) (ns : Namespace) :
    List SField → List (List (String × String))
  | [] => []
  | f :: rest =>
    (match f with
      | .flatten _ subAttrs subFields =>
        [declaredTagsFields infl subAttrs (make_ns attrs.rename_all ns) subFields]
      | .flattenEntry _ tags => [tags]
      | .field n ov (some v) =>
        [[(resolveLeaf (make_ns attrs.rename_all ns)
            (fun style => metric_name infl attrs style ⟨ov, n⟩), v)]]
      | _ => [])
    ++ sampleGroupContribsFields infl attrs ns rest

/-- Syntax tree of the generated iterator expression: a leaf iterator, a
`.chain` of two iterators, or `iter::empty()`. -/
inductive ChainExpr where
  | empty
  | leaf (tags : List (String × String))
  | chain (l r : ChainExpr)
deriving DecidableEq, Repr

/-- Sequence produced by running a chain expression. -/
def ChainExpr.flat : ChainExpr → List (String × String)
  | .empty => []
  | .leaf tags => tags
  | .chain l r => l.flat ++ r.flat

/-- Nesting depth of the chain expression (a linear right-fold of n leaves
has depth n - 1). -/
def ChainExpr.depth : ChainExpr → Nat
  | .empty => 0
  | .leaf _ => 0
  | .chain l r => max l.depth r.depth + 1

/-- Translated from entry_impl.rs `make_binary_tree_chain`: chain the given
iterators as a balanced binary tree — split at the midpoint and recurse on
each half — instead of a linear fold. -/
def make_binary_tree_chain (iterators : List ChainExpr) : ChainExpr :=
  if h0 : iterators = [] then .empty
  else if h1 : iterators.length = 1 then iterators.head h0
  else
    let mid := iterators.length / 2
    .chain (make_binary_tree_chain (iterators.take mid))
      (make_binary_tree_chain (iterators.drop mid))
termination_by iterators.length
decreasing_by
  · have : iterators.length ≠ 0 := fun h => h0 (List.length_eq_zero.mp h)
    simp only [List.length_take]
    omega
  · have : iterators.length ≠ 0 := fun h => h0 (List.length_eq_zero.mp h)
    simp only [List.length_drop]
    omega

/-- Translated from entry_impl.rs `generate_sample_group_statements` (the
final assembly): if any field contributed, chain the contributions with the
balanced binary tree, else emit the empty iterator. -/
def generate_sample_group_statements (infl : Inflector) (attrs : RootAttributes)
    (ns : Namespace) (fields : List SField) : ChainExpr :=
  let sample_group_fields := (sampleGroupContribsFields infl attrs ns fields).map ChainExpr.leaf
  if ¬sample_group_fields.isEmpty then make_binary_tree_chain sample_group_fields
  else .empty

/-- Translated from entry_impl.rs `generate_enum_entry_impl`, the
struct-shaped variant arm (the per-field writes inside one
`Enum::Variant { .. } => { .. }` match arm): plain fields resolve through
`metric_name` with the union's root attributes (so the root prefix applies),
while a flattened field's namespace is built from the rename style and the
field-level prefix only — the union's root prefix is not appended to it. -/
def enumStructVariantWriteNames (infl : Inflector) (root_attrs : RootAttributes)
    (ns : Namespace) : List SField → List String
  | [] => []
  | f :: rest =>
    (match f with
      | .timestamp => []
      | .flattenEntry names _ => names
      | .flatten pfxO subAttrs subFields =>
        let ns0 := make_ns root_attrs.rename_all ns
        let ns1 := match pfxO with
          | none => ns0
          | some (.Inflectable p) => appendInflectAffix infl ns0 p
          | some (.Exact e) => appendExact ns0 e
        writeNamesFields infl subAttrs ns1 subFields
      | .ignore => []
      | .field n ov _ =>
        [resolveLeaf (make_ns root_attrs.rename_all ns)
          (fun style => metric_name infl root_attrs style ⟨ov, n⟩)])
    ++ enumStructVariantWriteNames infl root_attrs ns rest

/-- Shape of the `CloseValue` impls emitted by lib.rs
`generate_close_value_impls`: whether the primary impl is written for the
reference form `&BaseTy` (versus the owned form `BaseTy`), the semantics of
its body, and whether the additional by-value proxy impl that delegates to
the reference impl is present. -/
structure GeneratedCloseImpls (α β : Type) where
  primaryOnRef : Bool
  primaryBody : α → β
  proxyToRef : Bool

/-- Translated from lib.rs `generate_close_value_impls`: for by-value
ownership only the owned impl is emitted; for by-ref ownership the primary
impl is on the reference form and the extra by-value proxy delegating to it
is also emitted. -/
def generate_close_value_impls {α β : Type} (root_attrs : RootAttributes)
    (impl_body : α → β) : GeneratedCloseImpls α β :=
  match root_attrs.ownership_kind with
  | .ByValue => ⟨false, impl_body, false⟩
  | .ByRef => ⟨true, impl_body, true⟩

/-- Closing a value through the reference form, when the generated impls
provide one. -/
def closeByRef {α β : Type} (g : GeneratedCloseImpls α β) (x : α) : Option β :=
  if g.primaryOnRef then some (g.primaryBody x) else none

/-- Closing a value through the by-value form: either the primary owned impl
directly, or, when only the reference impl exists, the proxy impl that
delegates to it. -/
def closeByValue {α β : Type} (g : GeneratedCloseImpls α β) (x : α) : Option β :=
  if g.primaryOnRef = false then some (g.primaryBody x)
  else if g.proxyToRef then closeByRef g x
  else none

/-- Specification-side character class `[A-Za-z0-9_-]` named by the spec's
naming-errors rule, for comparison with the code's Unicode-aware check. -/
def asciiNameClass (c : Char) : Bool :=
  ('a' ≤ c && c ≤ 'z') || ('A' ≤ c && c ≤ 'Z') || ('0' ≤ c && c ≤ '9')
  || c == '_' || c == '-'

/-- Specification-side description of the accumulated diagnostics of
`parse_struct_fields`: one diagnostic per invalid field, in declaration
order. -/
def fieldDiags (fields : List RawField) : List Diag :=
  fields.filterMap (fun f =>
    match f.attrs.validate with
    | .error e => some e
    | .ok _ => none)

/-- Specification-side description of the fields `parse_struct_fields`
parses: every valid field in declaration order, starting the enumeration
index at `i`. -/
def parsedOkFieldsFrom (i : Nat) : List RawField → List MetricsField
  | [] => []
  | f :: rest =>
    (match f.attrs.validate with
      | .ok attrs => [⟨(rawFieldIdent i f).1, (rawFieldIdent i f).2, f.span, attrs⟩]
      | .error _ => [])
    ++ parsedOkFieldsFrom (i + 1) rest

/-- Specification-side description of the accumulated diagnostics of
`parse_enum_variants` in `value(string)` mode: one diagnostic per variant
that carries data, in declaration order. -/
def valueStringDiags (variants : List RawVariant) : List Diag :=
  variants.filterMap (fun v =>
    if v.fields.isEmptyFields then none
    else some ⟨"value(string) enum variants may not contain data", v.span⟩)

/-- Specification-side description of the variants `parse_enum_variants`
parses in `value(string)` mode when a variant's field list is empty: the
variant with its name attribute and no data. -/
def valueStringParsedVariant (v : RawVariant) : MetricsVariant :=
  ⟨v.ident, v.span, ⟨v.nameAttr.map (·.value)⟩, none⟩

/-- ASCII lower-casing of one character, for the concrete inflector below. -/
def charLower (c : Char) : Char :=
  if 'A' ≤ c ∧ c ≤ 'Z' then Char.ofNat (c.toNat + 32) else c

/-- Concrete instantiation of the external inflector used to evaluate the
model on closed inputs: snake case modelled as ASCII lower-casing (which
agrees with the real `to_snake_case` on the single-word inputs evaluated
below), the other two styles as the identity. -/
def toLowerInflector : Inflector :=
  ⟨id, fun s => String.mk (s.data.map charLower), id⟩

/-- Balanced chaining preserves the concatenation order of its inputs. -/
theorem mbtc_flat (l : List ChainExpr) :
    (make_binary_tree_chain l).flat = (l.map ChainExpr.flat).flatten := by
  induction l using make_binary_tree_chain.induct with
  | case1 => simp [make_binary_tree_chain, ChainExpr.flat]
  | case2 l h0 h1 =>
    obtain ⟨x, rfl⟩ := List.length_eq_one.mp h1
    simp [make_binary_tree_chain, ChainExpr.flat]
  | case3 l h0 h1 mid ih1 ih2 =>
    rw [make_binary_tree_chain, dif_neg h0, dif_neg h1]
    show (ChainExpr.chain (make_binary_tree_chain (l.take mid))
      (make_binary_tree_chain (l.drop mid))).flat = _
    simp only [ChainExpr.flat]
    rw [ih1, ih2, ← List.flatten_append, ← List.map_append, List.take_append_drop]

/-- Balanced chaining of flat iterators has logarithmic nesting depth (a
linear right-fold of n iterators would have depth n - 1). -/
theorem mbtc_depth (l : List ChainExpr) (h : ∀ x ∈ l, x.depth = 0) :
    (make_binary_tree_chain l).depth ≤ Nat.clog 2 l.length := by
  induction l using make_binary_tree_chain.induct with
  | case1 => simp [make_binary_tree_chain, ChainExpr.depth]
  | case2 l h0 h1 =>
    obtain ⟨x, rfl⟩ := List.length_eq_one.mp h1
    simp [make_binary_tree_chain, h x (by simp)]
  | case3 l h0 h1 mid ih1 ih2 =>
    have hlen : 2 ≤ l.length := by
      rcases l with _ | ⟨a, _ | ⟨b, t⟩⟩ <;> simp_all
    have htake : ∀ x ∈ l.take mid, x.depth = 0 :=
      fun x hx => h x (List.mem_of_mem_take hx)
    have hdrop : ∀ x ∈ l.drop mid, x.depth = 0 :=
      fun x hx => h x (List.mem_of_mem_drop hx)
    rw [make_binary_tree_chain, dif_neg h0, dif_neg h1]
    show (ChainExpr.chain (make_binary_tree_chain (l.take mid))
      (make_binary_tree_chain (l.drop mid))).depth ≤ _
    simp only [ChainExpr.depth]
    have e1 := ih1 htake
    have e2 := ih2 hdrop
    rw [List.length_take] at e1
    rw [List.length_drop] at e2
    have hmin : min mid l.length = mid := by omega
    rw [hmin] at e1
    have hmono : Nat.clog 2 mid ≤ Nat.clog 2 (l.length - mid) :=
      Nat.clog_mono_right 2 (by omega)
    have hrec : Nat.clog 2 l.length = Nat.clog 2 ((l.length + 1) / 2) + 1 :=
      Nat.clog_of_two_le (by omega) hlen
    have heq : l.length - mid = (l.length + 1) / 2 := by omega
    rw [heq] at e2 hmono
    omega

/-- Concatenating the per-field contributions yields exactly the
declaration-order tag sequence. -/
theorem sampleGroupContribs_flatten (infl : Inflector) (attrs : RootAttributes)
    (ns : Namespace) (fields : List SField) :
    (sampleGroupContribsFields infl attrs ns fields).flatten
      = declaredTagsFields infl attrs ns fields := by
  induction fields with
  | nil => simp [sampleGroupContribsFields, declaredTagsFields]
  | cons f rest ih =>
    cases f with
    | field n ov sg =>
      cases sg <;> simp [sampleGroupContribsFields, declaredTagsFields, ih]
    | flatten pfxO subAttrs subFields =>
      simp [sampleGroupContribsFields, declaredTagsFields, ih]
    | flattenEntry names tags =>
      simp [sampleGroupContribsFields, declaredTagsFields, ih]
    | timestamp => simp [sampleGroupContribsFields, declaredTagsFields, ih]
    | ignore => simp [sampleGroupContribsFields, declaredTagsFields, ih]

/-- C1: for every field or variant without an explicit name override and
every one of the four styles, `metric_name` resolves to `apply(style, base)`
with no schema prefix; to the exact prefix concatenated verbatim in front of
`apply(style, base)` for an exact prefix; and to
`apply(style, prefix ++ base)` — prefix and base concatenated before
inflection — for an inflectable prefix. -/
theorem C1_metric_name_resolution (infl : Inflector) (style : NameStyle)
    (base e p : String) (r : NameStyle) (emf sg : Bool) (m : MetricMode) :
    metric_name infl ⟨none, r, emf, sg, m⟩ style ⟨none, base⟩ = style.apply infl base
    ∧ metric_name infl ⟨some (.Exact e), r, emf, sg, m⟩ style ⟨none, base⟩
      = e ++ style.apply infl base
    ∧ metric_name infl ⟨some (.Inflectable p), r, emf, sg, m⟩ style ⟨none, base⟩
      = style.apply infl (p ++ base) :=
  ⟨rfl, rfl, rfl⟩

/-- C4: the sample-group sequence produced by the generated chain equals the
declaration-order tag sequence (t1, ..., tN), for every schema — including
tags contributed recursively by Flatten and FlattenEntry fields at their
declaration positions — and the generated concatenation is balanced: its
nesting depth is at most log2 of the number of contributing fields (a linear
right-nested fold would be linear in it). -/
theorem C4_sample_group_order_and_balance :
    (∀ (infl : Inflector) (attrs : RootAttributes) (ns : Namespace) (fields : List SField),
      (generate_sample_group_statements infl attrs ns fields).flat
        = declaredTagsFields infl attrs ns fields)
    ∧ ∀ (infl : Inflector) (attrs : RootAttributes) (ns : Namespace) (fields : List SField),
      (generate_sample_group_statements infl attrs ns fields).depth
        ≤ Nat.clog 2 (sampleGroupContribsFields infl attrs ns fields).length := by
  constructor
  · intro infl attrs ns fields
    rw [← sampleGroupContribs_flatten infl attrs ns fields]
    unfold generate_sample_group_statements
    by_cases hemp :
        ((sampleGroupContribsFields infl attrs ns fields).map ChainExpr.leaf).isEmpty
    · rw [if_neg (by simpa using hemp)]
      have hnil : sampleGroupContribsFields infl attrs ns fields = [] := by
        simpa using hemp
      simp [hnil, ChainExpr.flat]
    · rw [if_pos (by simpa using hemp)]
      rw [mbtc_flat, List.map_map]
      have hcomp : ChainExpr.flat ∘ ChainExpr.leaf = id := rfl
      rw [hcomp, List.map_id]
  · intro infl attrs ns fields
    unfold generate_sample_group_statements
    by_cases hemp :
        ((sampleGroupContribsFields infl attrs ns fields).map ChainExpr.leaf).isEmpty
    · rw [if_neg (by simpa using hemp)]
      simp [ChainExpr.depth]
    · rw [if_pos (by simpa using hemp)]
      have hd := mbtc_depth
        ((sampleGroupContribsFields infl attrs ns fields).map ChainExpr.leaf)
        (by
          intro x hx
          obtain ⟨t, _, rfl⟩ := List.mem_map.mp hx
          rfl)
      simpa using hd

/-- C9: for the by-reference ownership modes (Subfield, Value, ValueString)
the generated code contains both the reference-form close impl and a
by-value impl delegating to it, and closing by value agrees with closing by
reference; for the by-value modes (RootEntry, SubfieldOwned) only the
by-value impl is generated. -/
theorem C9_close_value_delegation {α β : Type} (impl_body : α → β) (x : α)
    (pfxO : Option Pfx) (r : NameStyle) (emf sg : Bool) :
    ((generate_close_value_impls ⟨pfxO, r, emf, sg, .Subfield⟩ impl_body).primaryOnRef = true
      ∧ (generate_close_value_impls ⟨pfxO, r, emf, sg, .Subfield⟩ impl_body).proxyToRef = true
      ∧ closeByValue (generate_close_value_impls ⟨pfxO, r, emf, sg, .Subfield⟩ impl_body) x
        = closeByRef (generate_close_value_impls ⟨pfxO, r, emf, sg, .Subfield⟩ impl_body) x
      ∧ closeByRef (generate_close_value_impls ⟨pfxO, r, emf, sg, .Subfield⟩ impl_body) x
        = some (impl_body x))
    ∧ ((generate_close_value_impls ⟨pfxO, r, emf, sg, .Value⟩ impl_body).primaryOnRef = true
      ∧ (generate_close_value_impls ⟨pfxO, r, emf, sg, .Value⟩ impl_body).proxyToRef = true
      ∧ closeByValue (generate_close_value_impls ⟨pfxO, r, emf, sg, .Value⟩ impl_body) x
        = closeByRef (generate_close_value_impls ⟨pfxO, r, emf, sg, .Value⟩ impl_body) x
      ∧ closeByRef (generate_close_value_impls ⟨pfxO, r, emf, sg, .Value⟩ impl_body) x
        = some (impl_body x))
    ∧ ((generate_close_value_impls ⟨pfxO, r, emf, sg, .ValueString⟩ impl_body).primaryOnRef = true
      ∧ (generate_close_value_impls ⟨pfxO, r, emf, sg, .ValueString⟩ impl_body).proxyToRef = true
      ∧ closeByValue (generate_close_value_impls ⟨pfxO, r, emf, sg, .ValueString⟩ impl_body) x
        = closeByRef (generate_close_value_impls ⟨pfxO, r, emf, sg, .ValueString⟩ impl_body) x
      ∧ closeByRef (generate_close_value_impls ⟨pfxO, r, emf, sg, .ValueString⟩ impl_body) x
        = some (impl_body x))
    ∧ ((generate_close_value_impls ⟨pfxO, r, emf, sg, .RootEntry⟩ impl_body).primaryOnRef = false
      ∧ (generate_close_value_impls ⟨pfxO, r, emf, sg, .RootEntry⟩ impl_body).proxyToRef = false
      ∧ closeByValue (generate_close_value_impls ⟨pfxO, r, emf, sg, .RootEntry⟩ impl_body) x
        = some (impl_body x)
      ∧ closeByRef (generate_close_value_impls ⟨pfxO, r, emf, sg, .RootEntry⟩ impl_body) x
        = none)
    ∧ ((generate_close_value_impls ⟨pfxO, r, emf, sg, .SubfieldOwned⟩ impl_body).primaryOnRef = false
      ∧ (generate_close_value_impls ⟨pfxO, r, emf, sg, .SubfieldOwned⟩ impl_body).proxyToRef = false
      ∧ closeByValue (generate_close_value_impls ⟨pfxO, r, emf, sg, .SubfieldOwned⟩ impl_body) x
        = some (impl_body x)
      ∧ closeByRef (generate_close_value_impls ⟨pfxO, r, emf, sg, .SubfieldOwned⟩ impl_body) x
        = none) :=
  ⟨⟨rfl, rfl, rfl, rfl⟩, ⟨rfl, rfl, rfl, rfl⟩, ⟨rfl, rfl, rfl, rfl⟩,
    ⟨rfl, rfl, rfl, rfl⟩, ⟨rfl, rfl, rfl, rfl⟩⟩

/-- C10: a non-Preserve rename style pins the namespace's selection style
regardless of the caller-supplied namespace (keeping its accumulated
prefix), while Preserve forwards the caller-supplied namespace unchanged —
so a flattened subschema declaring no rename style has its field names
inflected by the enclosing schema's style, and a subschema with an explicit
non-Preserve style overrides the outer style. -/
theorem C10_namespace_style_forwarding (infl : Inflector) (ns : Namespace) (n : String)
    (emf sg emf2 sg2 : Bool) (m m2 : MetricMode) :
    (make_ns .PascalCase ns = ⟨.PascalCase, ns.pfx⟩
      ∧ make_ns .SnakeCase ns = ⟨.SnakeCase, ns.pfx⟩
      ∧ make_ns .KebabCase ns = ⟨.KebabCase, ns.pfx⟩)
    ∧ make_ns .Preserve ns = ns
    ∧ writeNamesFields infl ⟨none, .PascalCase, emf, sg, m⟩ ns
        [.flatten none ⟨none, .Preserve, emf2, sg2, m2⟩ [.field n none none]]
      = [ns.pfx ++ NameStyle.PascalCase.apply infl n]
    ∧ writeNamesFields infl ⟨none, .PascalCase, emf, sg, m⟩ ns
        [.flatten none ⟨none, .SnakeCase, emf2, sg2, m2⟩ [.field n none none]]
      = [ns.pfx ++ NameStyle.SnakeCase.apply infl n] := by
  refine ⟨⟨rfl, rfl, rfl⟩, rfl, ?_, ?_⟩
  · simp [writeNamesFields, make_ns, resolveLeaf, metric_name, NameStyle.apply]
  · simp [writeNamesFields, make_ns, resolveLeaf, metric_name, NameStyle.apply]

/-- C2: a field or variant with an explicit name override resolves to the
override verbatim under every style and every root prefix; and the override
stays prefix-composable: under an enclosing flatten with an inflectable
prefix, the written name is the prefix rendered with `apply_prefix` followed
by the untouched override — in particular override "NDucks" under
inflectable prefix "Waterfowl_" with rename_all snake_case gives
"waterfowl_NDucks". -/
theorem C2_name_override_verbatim (infl : Inflector) (style : NameStyle)
    (pfxO : Option Pfx) (r : NameStyle) (emf sg : Bool) (m : MetricMode)
    (o n p : String) (sgv : Option String) (emf2 sg2 : Bool) (m2 : MetricMode)
    (hsnake : infl.toSnakeCase "Waterfowl_" = "waterfowl_") :
    metric_name infl ⟨pfxO, r, emf, sg, m⟩ style ⟨some o, n⟩ = o
    ∧ writeNamesFields infl ⟨none, .SnakeCase, emf, sg, m⟩ rootNamespace
        [.flatten (some (.Inflectable p)) ⟨none, .Preserve, emf2, sg2, m2⟩
          [.field n (some o) sgv]]
      = [NameStyle.SnakeCase.applyPfx infl p ++ o]
    ∧ writeNamesFields infl ⟨none, .SnakeCase, emf, sg, m⟩ rootNamespace
        [.flatten (some (.Inflectable "Waterfowl_")) ⟨none, .Preserve, emf2, sg2, m2⟩
          [.field n (some "NDucks") sgv]]
      = ["waterfowl_NDucks"] := by
  have key : ∀ p' o' : String,
      writeNamesFields infl ⟨none, .SnakeCase, emf, sg, m⟩ rootNamespace
        [.flatten (some (.Inflectable p')) ⟨none, .Preserve, emf2, sg2, m2⟩
          [.field n (some o') sgv]]
      = [NameStyle.SnakeCase.applyPfx infl p' ++ o'] := by
    intro p' o'
    simp [writeNamesFields, make_ns, appendInflectAffix, resolveLeaf, metric_name,
      rootNamespace]
  refine ⟨rfl, key p o, ?_⟩
  rw [key "Waterfowl_" "NDucks"]
  have happ : NameStyle.SnakeCase.applyPfx infl "Waterfowl_" = "waterfowl_" := by
    simp only [NameStyle.applyPfx]
    rw [hsnake]
    decide
  rw [happ]
  rfl

/-- C2 witness: evaluated with the concrete inflector, the override is
returned verbatim and the composed flatten name is "waterfowl_NDucks". -/
theorem C2_name_override_verbatim_witness :
    metric_name toLowerInflector ⟨some (.Exact "X_"), .Preserve, false, false, .RootEntry⟩
      .SnakeCase ⟨some "NDucks", "number_of_ducks"⟩ = "NDucks"
    ∧ writeNamesFields toLowerInflector ⟨none, .SnakeCase, false, false, .RootEntry⟩
        rootNamespace
        [.flatten (some (.Inflectable "Waterfowl_")) ⟨none, .Preserve, false, false, .Subfield⟩
          [.field "number_of_ducks" (some "NDucks") none]]
      = ["waterfowl_NDucks"] :=
  ⟨(C2_name_override_verbatim toLowerInflector .SnakeCase (some (.Exact "X_")) .Preserve
      false false .RootEntry "NDucks" "number_of_ducks" "p" none false false .Subfield
      (by decide)).1,
   (C2_name_override_verbatim toLowerInflector .SnakeCase none .SnakeCase
      false false .RootEntry "NDucks" "number_of_ducks" "Waterfowl_" none false false .Subfield
      (by decide)).2.2⟩

/-- C3: in a struct-shaped variant of a union schema with a root-level
prefix, the names written for a nested Flatten field do not depend on the
union's root prefix (its namespace is built from the rename style and the
field-level prefix only), while a sibling plain field's name goes through
`metric_name` with the union's root attributes and therefore carries the
prefix — inflected together with the base name for an inflectable prefix,
verbatim in front for an exact prefix. -/
theorem C3_union_root_prefix_scope (infl : Inflector) (ns : Namespace)
    (pf : Pfx) (r : NameStyle) (emf sg : Bool) (m : MetricMode)
    (pfxO : Option Pfx) (subA : RootAttributes) (subF : List SField)
    (n p e : String) (ov sgv : Option String) :
    enumStructVariantWriteNames infl ⟨some pf, r, emf, sg, m⟩ ns [.flatten pfxO subA subF]
      = enumStructVariantWriteNames infl ⟨none, r, emf, sg, m⟩ ns [.flatten pfxO subA subF]
    ∧ enumStructVariantWriteNames infl ⟨some pf, r, emf, sg, m⟩ ns
        [.flatten pfxO subA subF, .field n ov sgv]
      = enumStructVariantWriteNames infl ⟨none, r, emf, sg, m⟩ ns [.flatten pfxO subA subF]
        ++ [resolveLeaf (make_ns r ns)
            (fun style => metric_name infl ⟨some pf, r, emf, sg, m⟩ style ⟨ov, n⟩)]
    ∧ resolveLeaf (make_ns r ns)
        (fun style => metric_name infl ⟨some (.Inflectable p), r, emf, sg, m⟩ style ⟨none, n⟩)
      = (make_ns r ns).pfx ++ (make_ns r ns).sel.apply infl (p ++ n)
    ∧ resolveLeaf (make_ns r ns)
        (fun style => metric_name infl ⟨some (.Exact e), r, emf, sg, m⟩ style ⟨none, n⟩)
      = (make_ns r ns).pfx ++ (e ++ (make_ns r ns).sel.apply infl n) := by
  refine ⟨?_, ?_, rfl, rfl⟩
  · simp [enumStructVariantWriteNames]
  · simp [enumStructVariantWriteNames]

/-- Specification of the accumulating field walk: the final state appends
one diagnostic per invalid field and one parsed field per valid field, in
declaration order. -/
theorem parse_struct_fields_core_spec (l : List RawField) :
    ∀ (i : Nat) (errs : List Diag) (parsed : List MetricsField),
    parse_struct_fields_core i errs parsed l
      = (errs ++ fieldDiags l, parsed ++ parsedOkFieldsFrom i l) := by
  induction l with
  | nil =>
    intro i errs parsed
    simp [parse_struct_fields_core, fieldDiags, parsedOkFieldsFrom]
  | cons f rest ih =>
    intro i errs parsed
    cases hv : f.attrs.validate with
    | ok attrs =>
      simp [parse_struct_fields_core, fieldDiags, parsedOkFieldsFrom, hv, ih,
        List.filterMap_cons]
    | error e =>
      simp [parse_struct_fields_core, fieldDiags, parsedOkFieldsFrom, hv, ih,
        List.filterMap_cons]

/-- Specification of the accumulating variant walk in `value(string)` mode,
assuming empty-field variants are unit-shaped: the final state appends one
diagnostic per data-carrying variant and keeps every unit variant, in
declaration order. -/
theorem parse_enum_variants_core_spec (variants : List RawVariant)
    (h : ∀ v ∈ variants, v.fields.isEmptyFields = true → v.fields = .unit) :
    ∀ (errs : List Diag) (parsed : List MetricsVariant),
    parse_enum_variants_core .ValueString errs parsed variants
      = (errs ++ valueStringDiags variants,
        parsed ++ variants.filterMap (fun v =>
          if v.fields.isEmptyFields then some (valueStringParsedVariant v) else none)) := by
  induction variants with
  | nil =>
    intro errs parsed
    simp [parse_enum_variants_core, valueStringDiags]
  | cons v rest ih =>
    intro errs parsed
    have ihr := ih (fun u hu => h u (by simp [hu]))
    by_cases hemp : v.fields.isEmptyFields
    · have hunit : v.fields = .unit := h v (by simp) hemp
      simp [parse_enum_variants_core, hemp, hunit, parse_variant_data, valueStringDiags,
        valueStringParsedVariant, ihr, List.filterMap_cons, VFields.isEmptyFields]
    · simp only [Bool.not_eq_true] at hemp
      simp [parse_enum_variants_core, hemp, valueStringDiags, ihr, List.filterMap_cons]

/-- Auxiliary: a conditional filterMap whose condition holds everywhere is a
map. -/
theorem filterMap_if_all {α β : Type} (g : α → β) (p : α → Bool) (l : List α)
    (h : ∀ a ∈ l, p a = true) :
    l.filterMap (fun a => if p a then some (g a) else none) = l.map g := by
  induction l with
  | nil => simp
  | cons a rest ih =>
    simp [List.filterMap_cons, h a (by simp), ih (fun b hb => h b (by simp [hb]))]

/-- C5: validation does not stop at the first error. Parsing a record's
fields yields, when any field is invalid, the accumulated list with one
diagnostic per invalid field in declaration order (otherwise all parsed
fields); the walk parses every wholly valid sibling even in the presence of
errors; and parsing a `value(string)` union's variants accumulates one
diagnostic per data-carrying variant in the same single pass. -/
theorem C5_error_accumulation :
    (∀ fields : List RawField,
      parse_struct_fields fields
        = if (fieldDiags fields).isEmpty then .ok (parsedOkFieldsFrom 0 fields)
          else .error (fieldDiags fields))
    ∧ (∀ fields : List RawField,
      (parse_struct_fields_core 0 [] [] fields).2 = parsedOkFieldsFrom 0 fields)
    ∧ ∀ variants : List RawVariant,
      (∀ v ∈ variants, v.fields.isEmptyFields = true → v.fields = .unit) →
      parse_enum_variants variants .ValueString
        = if (valueStringDiags variants).isEmpty
          then .ok (variants.map valueStringParsedVariant)
          else .error (valueStringDiags variants) := by
  refine ⟨?_, ?_, ?_⟩
  · intro fields
    unfold parse_struct_fields
    rw [parse_struct_fields_core_spec]
    simp
  · intro fields
    rw [parse_struct_fields_core_spec]
    simp
  · intro variants h
    unfold parse_enum_variants
    rw [parse_enum_variants_core_spec variants h]
    by_cases hd : (valueStringDiags variants).isEmpty
    · have hnil : valueStringDiags variants = [] := by simpa using hd
      have hall : ∀ v ∈ variants, v.fields.isEmptyFields = true := by
        intro v hv
        by_contra hne2
        simp only [Bool.not_eq_true] at hne2
        have hmem : (valueStringDiags variants) ≠ [] := by
          unfold valueStringDiags
          intro hcontra
          rw [List.filterMap_eq_nil_iff] at hcontra
          have hx := hcontra v hv
          simp [hne2] at hx
        exact hmem hnil
      rw [filterMap_if_all valueStringParsedVariant (fun v => v.fields.isEmptyFields)
        variants hall]
      simp [hnil]
    · have hne : (valueStringDiags variants).isEmpty = false := by
        simpa using hd
      simp [hne]

/-- C6: a root-level inflectable prefix that does not end in a delimiter is
rejected with a diagnostic that contains the corrected literal (the prefix
with a delimiter appended); a root-level exact prefix is accepted unchanged
whatever its shape; and a field-level inflectable prefix is not required to
end in a delimiter. -/
theorem C6_root_inflectable_delimiter (p : SpannedKv String)
    (h1 : name_contains_uninflectables p.value = none)
    (h2 : name_ends_with_delimiter p.value = false) :
    Pfx.from_inflectable_and_exact (some p) none .Root
      = .error ⟨pfxShouldEndWithDelimiterMessage p.value, p.key_span⟩
    ∧ (∃ pre post, pfxShouldEndWithDelimiterMessage p.value
        = pre ++ rustDebugStr (pfxWithDelimiter p.value) ++ post)
    ∧ (∀ q : SpannedKv String,
        Pfx.from_inflectable_and_exact none (some q) .Root
          = .ok (some ⟨.Exact q.value, q.key_span⟩))
    ∧ Pfx.from_inflectable_and_exact (some p) none .Field
      = .ok (some ⟨.Inflectable p.value, p.key_span⟩) := by
  refine ⟨?_, ?_, fun q => rfl, ?_⟩
  · simp [Pfx.from_inflectable_and_exact, h1, h2]
  · refine ⟨"The root-level prefix `" ++ rustDebugStr p.value
      ++ "` must end with a delimiter. Use `prefix = ",
      "`, which inflects correctly in all inflections", ?_⟩
    simp [pfxShouldEndWithDelimiterMessage, String.append_assoc]
  · simp [Pfx.from_inflectable_and_exact, h1, h2]

/-- C6 witness: the prefix "api" (clean characters, no trailing delimiter)
is rejected at root level with the corrected literal "api_" in the message,
while the same string is accepted as an exact prefix and as a field-level
inflectable prefix. -/
theorem C6_root_inflectable_delimiter_witness :
    Pfx.from_inflectable_and_exact (some ⟨1, 2, "api"⟩) none .Root
      = .error ⟨pfxShouldEndWithDelimiterMessage "api", 1⟩
    ∧ pfxWithDelimiter "api" = "api_"
    ∧ Pfx.from_inflectable_and_exact none (some ⟨1, 2, "api"⟩) .Root
      = .ok (some ⟨.Exact "api", 1⟩)
    ∧ Pfx.from_inflectable_and_exact (some ⟨1, 2, "api"⟩) none .Field
      = .ok (some ⟨.Inflectable "api", 1⟩) :=
  ⟨(C6_root_inflectable_delimiter ⟨1, 2, "api"⟩ (by decide) (by decide)).1,
   by decide,
   (C6_root_inflectable_delimiter ⟨1, 2, "api"⟩ (by decide) (by decide)).2.2.1 ⟨1, 2, "api"⟩,
   (C6_root_inflectable_delimiter ⟨1, 2, "api"⟩ (by decide) (by decide)).2.2.2⟩

/-- C5 witness: a value(string) union with two data-carrying variants around
a valid unit variant accumulates both diagnostics in one pass. -/
theorem C5_error_accumulation_witness :
    parse_enum_variants
      [⟨"Bad1", 1, none, .named [⟨some "x", 9,
          ⟨none, none, none, none, none, none, none, none, none, none, none⟩⟩]⟩,
        ⟨"Good", 2, some ⟨21, 22, "N"⟩, .unit⟩,
        ⟨"Bad2", 3, none, .unnamed [⟨none, 10,
          ⟨some 11, none, none, none, none, none, none, none, none, none, none⟩⟩]⟩]
      .ValueString
      = .error [⟨"value(string) enum variants may not contain data", 1⟩,
        ⟨"value(string) enum variants may not contain data", 3⟩] := by
  have h := C5_error_accumulation.2.2
    [⟨"Bad1", 1, none, .named [⟨some "x", 9,
        ⟨none, none, none, none, none, none, none, none, none, none, none⟩⟩]⟩,
      ⟨"Good", 2, some ⟨21, 22, "N"⟩, .unit⟩,
      ⟨"Bad2", 3, none, .unnamed [⟨none, 10,
        ⟨some 11, none, none, none, none, none, none, none, none, none, none⟩⟩]⟩]
    (by decide)
  rw [h]
  rfl

/-- C7 counterexample: the prefix "é_" contains the character 'é', which is
outside the class `[A-Za-z0-9_-]`, yet the code accepts it (Rust's
`char::is_alphanumeric` is Unicode-aware and counts 'é' as alphanumeric), so
"rejects if and only if it contains a character outside `[A-Za-z0-9_-]`"
fails at this input. -/
theorem C7_ascii_class_counterexample :
    Pfx.from_inflectable_and_exact (some ⟨0, 0, "é_"⟩) none .Root
      = .ok (some ⟨.Inflectable "é_", 0⟩)
    ∧ name_contains_uninflectables "é_" = none
    ∧ "é_".data.any (fun c => !(asciiNameClass c)) = true := by
  refine ⟨rfl, by decide, by decide⟩

/-- C7 (amended): an inflectable prefix (root-level or field-level) is
rejected by the uninflectable-character check if and only if it contains a
character that is neither alphanumeric in the Rust, Unicode-aware sense nor
an underscore nor a hyphen; the rejection diagnostic suggests the
exact_prefix alternative; and any prefix containing only characters of the
ASCII class `[A-Za-z0-9_-]` passes the check. -/
theorem C7_uninflectable_rejection :
    (∀ p : String, name_contains_uninflectables p = none
      ↔ ∀ c ∈ p.data, (rustIsAlphanumeric c || c == '_' || c == '-') = true)
    ∧ (∀ (p : SpannedKv String) (c : Char) (level : PfxLevel),
        name_contains_uninflectables p.value = some c →
        Pfx.from_inflectable_and_exact (some p) none level
          = .error ⟨inflectedPfxMessage p.value c, p.key_span⟩
        ∧ ∃ pre post, inflectedPfxMessage p.value c
            = pre ++ ("exact_prefix = " ++ rustDebugStr p.value) ++ post)
    ∧ ∀ p : String, (∀ c ∈ p.data, asciiNameClass c = true) →
        name_contains_uninflectables p = none := by
  have hbool : ∀ c : Char,
      ((!(rustIsAlphanumeric c) && c != '_' && c != '-') = false)
        ↔ ((rustIsAlphanumeric c || c == '_' || c == '-') = true) := by
    intro c
    cases hr : rustIsAlphanumeric c <;> cases h1 : (c == '_') <;> cases h2 : (c == '-') <;>
      simp_all [bne]
  have hiff : ∀ p : String, name_contains_uninflectables p = none
      ↔ ∀ c ∈ p.data, (rustIsAlphanumeric c || c == '_' || c == '-') = true := by
    intro p
    rw [name_contains_uninflectables, List.find?_eq_none]
    constructor
    · intro h c hc
      exact (hbool c).mp (by simpa using h c hc)
    · intro h c hc
      simpa using (hbool c).mpr (h c hc)
  refine ⟨hiff, ?_, ?_⟩
  · intro p c level hc
    constructor
    · cases level <;> simp [Pfx.from_inflectable_and_exact, hc]
    · refine ⟨"You cannot use the character " ++ rustDebugChar c
        ++ " with `prefix`. `prefix` will \x22inflect\x22 to match the name scheme specified by `rename_all`. For example, it will change all delimiters to `-` for kebab case). If you want to match namestyle, use `prefix = "
        ++ rustDebugStr (inflectedPfxFixed p.value) ++ "`. If you want to preserve "
        ++ rustDebugChar c ++ " in the final metric name use `",
        "." ++ (if name_contains_dot p.value
          then " \x27.\x27 used to be allowed in `prefix` but is now forbidden."
          else ""), ?_⟩
      simp only [inflectedPfxMessage, String.append_assoc]
  · intro p h
    refine (hiff p).mpr (fun c hc => ?_)
    have h2 := h c hc
    simp only [asciiNameClass, Bool.or_eq_true] at h2
    simp only [Bool.or_eq_true]
    rcases h2 with (((h3 | h3) | h3) | h3) | h3
    · exact Or.inl (Or.inl (by simp [rustIsAlphanumeric, h3]))
    · exact Or.inl (Or.inl (by simp [rustIsAlphanumeric, h3]))
    · exact Or.inl (Or.inl (by simp [rustIsAlphanumeric, h3]))
    · exact Or.inl (Or.inr h3)
    · exact Or.inr h3

/-- C7 witness: the prefix "a:b" is rejected with the exact_prefix-suggesting
diagnostic at the character ':', and the clean prefix "ok-name_0" passes. -/
theorem C7_uninflectable_rejection_witness :
    name_contains_uninflectables "a:b" = some ':'
    ∧ Pfx.from_inflectable_and_exact (some ⟨3, 4, "a:b"⟩) none .Field
        = .error ⟨inflectedPfxMessage "a:b" ':', 3⟩
    ∧ name_contains_uninflectables "ok-name_0" = none :=
  ⟨by decide,
   (C7_uninflectable_rejection.2.1 ⟨3, 4, "a:b"⟩ ':' .Field (by decide)).1,
   C7_uninflectable_rejection.2.2 "ok-name_0" (by decide)⟩

/-- C8 counterexample: the override "a\tb" contains a whitespace character
(the tab) and is non-empty, yet the code accepts it — the source only
rejects the space character `' '`, not arbitrary whitespace — so "rejects
any override containing any whitespace" fails at this input. -/
theorem C8_whitespace_counterexample :
    validate_name_inner "a\tb" = .ok ()
    ∧ "a\tb".data.isEmpty = false
    ∧ "a\tb".data.any Char.isWhitespace = true := by
  refine ⟨rfl, by decide, by decide⟩

/-- C8 (amended): a name override is accepted if and only if it is non-empty
and contains no space character `' '`; an empty override or one containing a
space is rejected with a diagnostic at the declaration's value span. -/
theorem C8_name_override_validation :
    (∀ name : String, validate_name_inner name = .ok ()
      ↔ (name.data.isEmpty = false ∧ name.data.contains ' ' = false))
    ∧ (∀ kv : SpannedKv String, kv.value.data.isEmpty = true →
        validate_name kv
          = .error ⟨"invalid name: name field must not be empty", kv.value_span⟩)
    ∧ (∀ kv : SpannedKv String, kv.value.data.isEmpty = false →
        kv.value.data.contains ' ' = true →
        validate_name kv
          = .error ⟨"invalid name: name must not contain spaces", kv.value_span⟩)
    ∧ ∀ kv : SpannedKv String, kv.value.data.isEmpty = false →
        kv.value.data.contains ' ' = false →
        validate_name kv = .ok kv := by
  refine ⟨?_, ?_, ?_, ?_⟩
  · intro name
    unfold validate_name_inner
    by_cases h1 : name.data.isEmpty <;> by_cases h2 : (' ' ∈ name.data) <;>
      simp [h1, h2]
  · intro kv h
    simp [validate_name, validate_name_inner, h]
  · intro kv h1 h2
    have h2m : ' ' ∈ kv.value.data := by simpa using h2
    simp [validate_name, validate_name_inner, h1, h2m]
  · intro kv h1 h2
    have h2m : ¬ ' ' ∈ kv.value.data := by simpa using h2
    simp [validate_name, validate_name_inner, h1, h2m]

/-- C8 witness: the empty override and one with a space are rejected with
their respective diagnostics at the value span, a clean override passes. -/
theorem C8_name_override_validation_witness :
    validate_name ⟨5, 6, ""⟩
      = .error ⟨"invalid name: name field must not be empty", 6⟩
    ∧ validate_name ⟨5, 6, "a b"⟩
      = .error ⟨"invalid name: name must not contain spaces", 6⟩
    ∧ validate_name ⟨5, 6, "Ok"⟩ = .ok ⟨5, 6, "Ok"⟩ :=
  ⟨C8_name_override_validation.2.1 ⟨5, 6, ""⟩ (by decide),
   C8_name_override_validation.2.2.1 ⟨5, 6, "a b"⟩ (by decide) (by decide),
   C8_name_override_validation.2.2.2 ⟨5, 6, "Ok"⟩ (by decide) (by decide)⟩

end Metrique
